import Mathlib

/-! Verification of the upload/album orchestration core of the catbox
command-line client (`src/main.rs`): identifier normalization, the session
cache, the upload and album-membership orchestrators, and the bounded
concurrency driver. External collaborator behaviour (the `url` crate's
parser, tokio's `OnceCell`, the `buffer_unordered` combinator) is modelled
from its documented contract; the orchestration logic itself is a direct
embedding of the Rust source. -/

namespace Cbx

/-- Helper for `strContains`: does `pat` occur as a contiguous run inside `l`?
Character-level model of Rust `str::contains` with a string pattern. -/
def listContains (pat : List Char) : List Char → Bool
  | [] => pat.isEmpty
  | c :: tl => pat.isPrefixOf (c :: tl) || listContains pat tl

/-- Model of Rust `str::contains` for a string pattern. -/
def strContains (s pat : String) : Bool :=
  listContains pat.data s.data

/-- A parsed URL, as produced by the `url` crate's `Url::parse`, restricted to
the components this client inspects: scheme, authority host, and the path
(everything after the host). `host = none` models a cannot-be-a-base URL
(a scheme not followed by `//`), for which `path_segments` returns `none`. -/
structure Url where
  scheme : String
  host : Option String
  path : String
  deriving DecidableEq, Repr

/-- Split a character list at the first occurrence of `c`, returning the parts
before and after it; `none` when `c` does not occur. -/
def splitAtChar? (c : Char) : List Char → Option (List Char × List Char)
  | [] => none
  | x :: xs =>
    if x = c then some ([], xs)
    else (splitAtChar? c xs).map (fun p => (x :: p.1, p.2))

/-- A valid URL scheme: nonempty, starting with an ASCII letter, the remaining
characters letters, digits, `+`, `-` or `.`. -/
def schemeOk : List Char → Bool
  | [] => false
  | c :: cs =>
    c.isAlpha && cs.all (fun d => d.isAlpha || d.isDigit || d = '+' || d = '-' || d = '.')

/-- The part of `Url::parse` that runs after the scheme has been split off:
with `//` it extracts a nonempty host (everything up to the next `/`) and a
`/`-rooted path (`/` when absent); without `//` it yields a cannot-be-a-base
URL whose path is the rest of the input. -/
def urlParseAfterScheme (sch rest : List Char) : Option Url :=
  if schemeOk sch then
    if rest.take 2 = ['/', '/'] then
      if ((rest.drop 2).takeWhile (fun c => c ≠ '/')).isEmpty then none
      else
        some ⟨String.mk sch, some (String.mk ((rest.drop 2).takeWhile (fun c => c ≠ '/'))),
          if ((rest.drop 2).dropWhile (fun c => c ≠ '/')).isEmpty then "/"
          else String.mk ((rest.drop 2).dropWhile (fun c => c ≠ '/'))⟩
    else some ⟨String.mk sch, none, String.mk rest⟩
  else none

/-- Model of `Url::parse` from the `url` crate, restricted to the behaviour the
client relies on: an input with no scheme fails (`RelativeUrlWithoutBase`); a
scheme followed by `//` yields a URL with a nonempty host and a `/`-rooted
path; a scheme not followed by `//` yields a cannot-be-a-base URL whose path
is the rest of the input. -/
def urlParse (s : String) : Option Url :=
  match splitAtChar? ':' s.data with
  | none => none
  | some (sch, rest) => urlParseAfterScheme sch rest

/-- Split a character list on a separator character, in the manner of Rust's
`str::split`: the result always has at least one (possibly empty) piece. -/
def splitOnChar (c : Char) : List Char → List (List Char)
  | [] => [[]]
  | x :: xs =>
    if x = c then [] :: splitOnChar c xs
    else
      match splitOnChar c xs with
      | [] => [[x]]
      | piece :: rest => (x :: piece) :: rest

/-- Model of `Url::path_segments`: `none` for a cannot-be-a-base URL, otherwise
the path without its leading `/`, split on `/` (never an empty list). -/
def pathSegments (u : Url) : Option (List String) :=
  u.host.map (fun _ => (splitOnChar '/' (u.path.data.drop 1)).map String.mk)

/-- Serialisation of a parsed URL back to a string (`Url::as_str`). -/
def urlToString (u : Url) : String :=
  match u.host with
  | some h => u.scheme ++ "://" ++ h ++ u.path
  | none => u.scheme ++ ":" ++ u.path

/-- Album normalization from `add_to_album` (src/main.rs lines 73-79): an album
reference containing `catbox.moe` is parsed verbatim as a URL; otherwise the
bare code is interpolated into the fixed album-URL template. `none` models the
parse error propagated by `?`. -/
def normalizeAlbum (album : String) : Option Url :=
  if strContains album "catbox.moe" then urlParse album
  else urlParse ("https://catbox.moe/c/" ++ album)

/-- File-reference normalization from `add_to_album` (src/main.rs lines 81-87):
a reference containing `files.catbox.moe` is parsed as a URL and its first
path segment is extracted; `none` models `filter_map` dropping the item when
parsing or segment extraction fails. Any other reference passes through
unchanged. -/
def normalizeFile (x : String) : Option String :=
  if strContains x "files.catbox.moe" then
    (urlParse x).bind (fun u => (pathSegments u).bind (fun segs => segs.head?))
  else some x

/-- Observable events of the album-membership orchestrator: spinner
registration (`ProgressBar::new_spinner` added to `MULTI_PROGRESS`), the
remote add-to-album call (`User::upload_to_album`), and spinner clearing
(`finish_and_clear`), labelled by the normalized file reference. -/
inductive Ev where
  | spinnerStart (file : String)
  | remoteAdd (album : Url) (file : String)
  | spinnerClear (file : String)
  deriving DecidableEq, Repr

/-- Errors surfaced by `add_to_album`: session-acquisition failure, the album
URL parse error propagated by `?`, or a failing remote call. `ε` stands for
the dynamic `color_eyre::Report` payload. -/
inductive AddErr (ε : Type) where
  | auth (e : ε)
  | urlParseError
  | remote (e : ε)
  deriving DecidableEq, Repr

/-- One spawned add-to-album task (src/main.rs lines 88-104): it registers a
spinner labelled with the file reference, awaits the remote call for
(album, file), then finishes and clears the spinner. The clearing is
sequenced after the await unconditionally, so the emitted trace does not
depend on whether the call succeeded. `call` abstracts
`User::upload_to_album`. -/
def addTask (call : Url → String → Except ε Unit) (album : Url) (x : String) :
    List Ev × Except ε Unit :=
  ([Ev.spinnerStart x, Ev.remoteAdd album x, Ev.spinnerClear x], call album x)

/-- Driver loop for the add-to-album tasks: the tasks dispatched by
`buffer_unordered` are aggregated by `try_collect`, which stops at the first
failing task. Returns the aggregate result and the concatenated event trace
of the tasks that ran. -/
def runAdds (call : Url → String → Except ε Unit) (album : Url) :
    List String → Except (AddErr ε) Unit × List Ev
  | [] => (Except.ok (), [])
  | x :: rest =>
    let t := addTask call album x
    match t.2 with
    | Except.error e => (Except.error (AddErr.remote e), t.1)
    | Except.ok _ =>
      let r := runAdds call album rest
      (r.1, t.1 ++ r.2)

/-- The album-membership orchestrator `add_to_album` (src/main.rs lines
70-110): acquires the shared session, normalizes the album reference (a parse
failure aborts the whole call), filters the file references through
`normalizeFile` (failed normalizations are silently dropped), and runs one
task per surviving reference. `getUser` abstracts `USER_INSTANCE.get()`.
Completion order of the bounded-concurrency driver is abstracted; the trace
lists tasks in dispatch order. -/
def add_to_album (getUser : Except ε Unit) (call : Url → String → Except ε Unit)
    (album : String) (files : List String) : Except (AddErr ε) Unit × List Ev :=
  match getUser with
  | Except.error e => (Except.error (AddErr.auth e), [])
  | Except.ok _ =>
    match normalizeAlbum album with
    | none => (Except.error AddErr.urlParseError, [])
    | some albumUrl => runAdds call albumUrl (files.filterMap normalizeFile)

/-- The progress line printed for one completed upload
(`MULTI_PROGRESS.println`, src/main.rs line 63). -/
def pathLine (path url : String) : String :=
  path ++ ": " ++ url

/-- Driver loop for the upload tasks in completion order: each completed
upload prints its progress line and contributes its URL; `try_collect` stops
at the first failure. Returns the aggregate result, the uploads performed,
and the lines printed. -/
def runUploads (up : String → Except ε String) :
    List String → Except ε (List String) × List String × List String
  | [] => (Except.ok [], [], [])
  | p :: rest =>
    match up p with
    | Except.error e => (Except.error e, [p], [])
    | Except.ok url =>
      let r := runUploads up rest
      (r.1.map (fun us => url :: us), p :: r.2.1, pathLine p url :: r.2.2)

/-- The upload orchestrator `upload_files` (src/main.rs lines 52-68): acquires
the shared session (an authentication failure fails the whole call before any
upload is attempted), then uploads with bounded concurrency. `σ` is the
completion order of the concurrent tasks, a permutation of the input paths;
`up` abstracts `User::upload_file`. Returns the collected URLs, the upload
calls issued, and the progress lines printed. -/
def upload_files (getUser : Except ε Unit) (up : String → Except ε String)
    (σ : List String) : Except ε (List String) × List String × List String :=
  match getUser with
  | Except.error e => (Except.error e, [], [])
  | Except.ok _ => runUploads up σ

/-- One `UserInstance::get` call (src/main.rs lines 47-49), modelling tokio's
`OnceCell::get_or_try_init`: a filled cell is returned without invoking the
initializer; an empty cell invokes the initializer (`User::new`, outcome
`att`), caches a success, and leaves the cell empty on failure. The cell
serialises initialization attempts, so a run of concurrent callers is a
sequence of such calls. Returns the new cell state, the caller's result, and
whether authentication was invoked. -/
def cacheGet (st : Option υ) (att : Except ε υ) : Option υ × Except ε υ × Bool :=
  match st with
  | some u => (some u, Except.ok u, false)
  | none =>
    match att with
    | Except.ok u => (some u, Except.ok u, true)
    | Except.error e => (none, Except.error e, true)

/-- A run of successive `UserInstance::get` calls, each given the outcome its
initialization attempt would produce if invoked. Returns the final cell state
and, per call, the caller's result and whether authentication ran. -/
def cacheRun (st : Option υ) : List (Except ε υ) → Option υ × List (Except ε υ × Bool)
  | [] => (st, [])
  | att :: rest =>
    let s := cacheGet st att
    let r := cacheRun s.1 rest
    (r.1, s.2 :: r.2)

/-- The bounded-concurrency driver state shared by both orchestrators: tasks
not yet started, tasks in flight, and finished tasks. -/
structure Sched (α : Type) where
  pending : List α
  inFlight : List α
  finished : List α
  deriving DecidableEq, Repr

/-- One step of `buffer_unordered n` (the combinator used at src/main.rs lines
60 and 106): a new task may start only while fewer than `n` are in flight, and
any in-flight task may finish (completion is unordered). -/
inductive SchedStep (n : Nat) : Sched α → Sched α → Prop where
  | start (p : α) (rest fl fin : List α) (h : fl.length < n) :
      SchedStep n ⟨p :: rest, fl, fin⟩ ⟨rest, p :: fl, fin⟩
  | finish (pend fl₁ fl₂ fin : List α) (t : α) :
      SchedStep n ⟨pend, fl₁ ++ t :: fl₂, fin⟩ ⟨pend, fl₁ ++ fl₂, t :: fin⟩

/-- The concurrency ceiling passed to `buffer_unordered` in `upload_files`
(src/main.rs line 60). -/
def uploadBufferSize : Nat := 5

/-- The concurrency ceiling passed to `buffer_unordered` in `add_to_album`
(src/main.rs line 106). -/
def addToAlbumBufferSize : Nat := 5

/-- C1: the claim states that `add_to_album` with files
`https://files.catbox.moe/xyz123.png` and `abc456` normalizes both items to
the bare codes `xyz123` and `abc456`. It does not: the code takes the first
path segment of the URL, which is the full file name `xyz123.png`, extension
included, so the first item is normalized to `xyz123.png`, not `xyz123`. -/
theorem scenarioB_extension_kept :
    normalizeFile "https://files.catbox.moe/xyz123.png" = some "xyz123.png" ∧
    some "xyz123.png" ≠ some "xyz123" ∧
    normalizeFile "https://files.catbox.moe/xyz123.png" ≠ some "xyz123" := by
  refine ⟨rfl, by decide, ?_⟩
  intro h
  exact absurd (rfl.symm.trans h) (by decide)

/-- C1 (amended): `add_to_album("myalbum", ["https://files.catbox.moe/xyz123.png",
"abc456"])` normalizes the two items to `xyz123.png` (the full first path
segment, extension included) and `abc456`, and issues both add-to-album calls
against the canonical album URL `https://catbox.moe/c/myalbum`. -/
theorem scenarioB_add_calls :
    add_to_album (Except.ok () : Except Unit Unit) (fun _ _ => Except.ok ())
      "myalbum" ["https://files.catbox.moe/xyz123.png", "abc456"] =
    (Except.ok (),
      [Ev.spinnerStart "xyz123.png",
       Ev.remoteAdd ⟨"https", some "catbox.moe", "/c/myalbum"⟩ "xyz123.png",
       Ev.spinnerClear "xyz123.png",
       Ev.spinnerStart "abc456",
       Ev.remoteAdd ⟨"https", some "catbox.moe", "/c/myalbum"⟩ "abc456",
       Ev.spinnerClear "abc456"]) := by
  rfl

/-- C4: in `add_to_album`, a file reference containing `files.catbox.moe` is
parsed as a URL and its first path segment is taken; one that does not contain
the substring passes through unchanged and is never dropped; and a reference
that fails to normalize is dropped from the batch while every other item, on
either side of it, is still processed. -/
theorem normalizeFile_drop_policy (x : String) :
    (strContains x "files.catbox.moe" = true →
      normalizeFile x =
        (urlParse x).bind (fun u => (pathSegments u).bind (fun segs => segs.head?))) ∧
    (strContains x "files.catbox.moe" = false → normalizeFile x = some x) ∧
    (∀ pre post : List String, normalizeFile x = none →
      (pre ++ x :: post).filterMap normalizeFile =
        pre.filterMap normalizeFile ++ post.filterMap normalizeFile) ∧
    (∀ pre post : List String, ∀ y : String, normalizeFile x = some y →
      (pre ++ x :: post).filterMap normalizeFile =
        pre.filterMap normalizeFile ++ y :: post.filterMap normalizeFile) := by
  refine ⟨fun h => ?_, fun h => ?_, fun pre post h => ?_, fun pre post y h => ?_⟩
  · simp [normalizeFile, h]
  · simp [normalizeFile, h]
  · simp [List.filterMap_append, List.filterMap_cons, h]
  · simp [List.filterMap_append, List.filterMap_cons, h]

/-- Witness for C4 at concrete inputs: a `files.catbox.moe` URL is reduced to
its first path segment, a bare reference passes through, and a reference whose
segment extraction fails (a cannot-be-a-base URL) is dropped while its
neighbours survive. -/
theorem normalizeFile_drop_policy_witness :
    normalizeFile "https://files.catbox.moe/xyz123.png" =
      (urlParse "https://files.catbox.moe/xyz123.png").bind
        (fun u => (pathSegments u).bind (fun segs => segs.head?)) ∧
    normalizeFile "abc456" = some "abc456" ∧
    (["abc456"] ++ "mailto:files.catbox.moe" :: ["zzz"]).filterMap normalizeFile =
      ["abc456"].filterMap normalizeFile ++ ["zzz"].filterMap normalizeFile :=
  ⟨(normalizeFile_drop_policy "https://files.catbox.moe/xyz123.png").1 (by decide),
   (normalizeFile_drop_policy "abc456").2.1 (by decide),
   (normalizeFile_drop_policy "mailto:files.catbox.moe").2.2.1 ["abc456"] ["zzz"] (by decide)⟩

/-- C5: when session acquisition fails, `upload_files` returns that error and
the list of upload calls issued is empty: no upload is attempted. -/
theorem upload_files_auth_failure (e : ε) (up : String → Except ε String)
    (σ : List String) :
    upload_files (Except.error e) up σ = (Except.error e, [], []) := rfl

/-- C9: `upload_files` consults the shared session even for an empty input
sequence: with zero paths a failing acquisition still yields that error, and a
successful one yields the empty result sequence (and no uploads or lines). -/
theorem upload_files_empty_paths (e : ε) (up : String → Except ε String) :
    upload_files (Except.error e) up [] = (Except.error e, [], []) ∧
    upload_files (Except.ok ()) up [] = (Except.ok [], [], []) :=
  ⟨rfl, rfl⟩

/-- C8: every add-to-album task registers its spinner before the remote call
and clears it afterwards, and the emitted trace is the same whatever the
outcome of the remote call (in particular on failure), so no spinner is left
dangling when the task ends. -/
theorem addTask_spinner_lifecycle (call : Url → String → Except ε Unit)
    (album : Url) (x : String) :
    (addTask call album x).1 =
      [Ev.spinnerStart x, Ev.remoteAdd album x, Ev.spinnerClear x] ∧
    (addTask call album x).2 = call album x ∧
    (∀ other : Url → String → Except ε Unit,
      (addTask call album x).1 = (addTask other album x).1) :=
  ⟨rfl, rfl, fun _ => rfl⟩

/-- When every upload succeeds, the driver loop collects exactly the URLs of
the completion order and prints exactly one line per path. -/
theorem runUploads_all_ok (up : String → Except ε String) (u : String → String)
    (h : ∀ p, up p = Except.ok (u p)) (σ : List String) :
    runUploads up σ = (Except.ok (σ.map u), σ, σ.map (fun p => pathLine p (u p))) := by
  induction σ with
  | nil => rfl
  | cons p rest ih => simp [runUploads, h p, ih, Except.map]

/-- C3: if the completion order `σ` is a permutation of the input paths and
every upload succeeds, `upload_files` returns one URL per completed path — a
permutation of the upload URLs of the input paths, exactly one result and one
printed progress line per path, with no duplicates beyond those of the inputs —
while the returned sequence follows completion order, not input order. -/
theorem upload_files_perm (paths σ : List String) (up : String → Except ε String)
    (u : String → String) (hperm : σ.Perm paths)
    (hup : ∀ p, up p = Except.ok (u p)) :
    (upload_files (Except.ok ()) up σ).1 = Except.ok (σ.map u) ∧
    (σ.map u).Perm (paths.map u) ∧
    (upload_files (Except.ok ()) up σ).2.1 = σ ∧
    (upload_files (Except.ok ()) up σ).2.2 = σ.map (fun p => pathLine p (u p)) ∧
    (σ.map (fun p => pathLine p (u p))).Perm
      (paths.map (fun p => pathLine p (u p))) := by
  have hr := runUploads_all_ok up u hup σ
  exact ⟨by simp [upload_files, hr], hperm.map u, by simp [upload_files, hr],
    by simp [upload_files, hr], hperm.map _⟩

/-- Witness for C3: two paths completing in reversed order yield the two upload
URLs as a permutation of the input-order URLs, with one line per path. -/
theorem upload_files_perm_witness :
    (upload_files (Except.ok () : Except Unit Unit)
        (fun p => Except.ok ("https://files.catbox.moe/" ++ p))
        ["b.png", "a.png"]).1 =
      Except.ok (["b.png", "a.png"].map (fun p => "https://files.catbox.moe/" ++ p)) ∧
    (["b.png", "a.png"].map (fun p => "https://files.catbox.moe/" ++ p)).Perm
      (["a.png", "b.png"].map (fun p => "https://files.catbox.moe/" ++ p)) ∧
    (upload_files (Except.ok () : Except Unit Unit)
        (fun p => Except.ok ("https://files.catbox.moe/" ++ p))
        ["b.png", "a.png"]).2.1 = ["b.png", "a.png"] ∧
    (upload_files (Except.ok () : Except Unit Unit)
        (fun p => Except.ok ("https://files.catbox.moe/" ++ p))
        ["b.png", "a.png"]).2.2 =
      ["b.png", "a.png"].map
        (fun p => pathLine p ("https://files.catbox.moe/" ++ p)) ∧
    (["b.png", "a.png"].map
        (fun p => pathLine p ("https://files.catbox.moe/" ++ p))).Perm
      (["a.png", "b.png"].map
        (fun p => pathLine p ("https://files.catbox.moe/" ++ p))) :=
  upload_files_perm ["a.png", "b.png"] ["b.png", "a.png"]
    (fun p => Except.ok ("https://files.catbox.moe/" ++ p))
    (fun p => "https://files.catbox.moe/" ++ p) (by decide) (fun p => rfl)

/-- A filled session cell answers every later call with the cached session and
never invokes authentication again. -/
theorem cacheRun_filled (u : υ) (atts : List (Except ε υ)) :
    cacheRun (some u) atts = (some u, atts.map (fun _ => (Except.ok u, false))) := by
  induction atts with
  | nil => rfl
  | cons a rest ih => simp [cacheRun, cacheGet, ih]

/-- C2: in a run of `UserInstance::get` calls whose first initialization
attempt succeeds, authentication runs exactly once — every caller receives the
same cached session and the per-call log marks only the first call as having
authenticated; a failed attempt returns its error, is not cached (the cell
stays empty), and the next call invokes authentication again. -/
theorem cache_once_per_success (u : υ) (rest : List (Except ε υ)) :
    cacheRun none (Except.ok u :: rest) =
      (some u, (Except.ok u, true) :: rest.map (fun _ => (Except.ok u, false))) ∧
    (((cacheRun none (Except.ok u :: rest)).2.filter (fun r => r.2)).length = 1) ∧
    (∀ e : ε, cacheGet (none : Option υ) (Except.error e) =
      (none, Except.error e, true)) ∧
    (∀ att : Except ε υ, (cacheGet (none : Option υ) att).2.2 = true) := by
  have hrun : cacheRun none (Except.ok u :: rest) =
      (some u, (Except.ok u, true) :: rest.map (fun _ => (Except.ok u, false))) := by
    simp [cacheRun, cacheGet, cacheRun_filled]
  refine ⟨hrun, ?_, fun e => rfl, fun att => ?_⟩
  · rw [hrun]
    simp [List.filter_map, Function.comp_def]
  · cases att <;> rfl

/-- A `buffer_unordered` step never pushes the number of in-flight tasks above
the ceiling. -/
theorem schedStep_inFlight_le {n : Nat} {s t : Sched α} (h : SchedStep n s t)
    (hs : s.inFlight.length ≤ n) : t.inFlight.length ≤ n := by
  cases h with
  | start p rest fl fin hlt => simpa using hlt
  | finish pend fl₁ fl₂ fin t =>
    simp only [List.length_append, List.length_cons] at hs ⊢
    omega

/-- C7: the concurrency ceilings of both orchestrators are the fixed constant
5 (the literal arguments to `buffer_unordered` at src/main.rs lines 60 and
106), and in every schedule reachable from an initial task list, never more
than 5 tasks are in flight at once. -/
theorem bounded_concurrency (tasks : List α) (s : Sched α)
    (h : Relation.ReflTransGen (SchedStep uploadBufferSize) ⟨tasks, [], []⟩ s) :
    uploadBufferSize = 5 ∧ addToAlbumBufferSize = 5 ∧ s.inFlight.length ≤ 5 := by
  refine ⟨rfl, rfl, ?_⟩
  induction h with
  | refl => simp
  | tail hsteps hstep ih => exact schedStep_inFlight_le hstep ih

/-- Witness for C7: a concrete one-step schedule (one task started out of two)
stays within the ceiling. -/
theorem bounded_concurrency_witness :
    uploadBufferSize = 5 ∧ addToAlbumBufferSize = 5 ∧
    (Sched.mk [2] [1] ([] : List Nat)).inFlight.length ≤ 5 :=
  bounded_concurrency [1, 2] ⟨[2], [1], []⟩
    (Relation.ReflTransGen.single (SchedStep.start 1 [2] [] [] (by decide)))

/-- C10: any album argument containing `catbox.moe` anywhere — a file-content
URL or a bare code that merely contains the substring — is parsed verbatim as
a URL, and when that parse fails `add_to_album` fails with the parse error
instead of interpolating the argument into the album-URL template. -/
theorem album_verbatim_parse (s : String) (h : strContains s "catbox.moe" = true) :
    normalizeAlbum s = urlParse s ∧
    (urlParse s = none →
      ∀ (call : Url → String → Except ε Unit) (files : List String),
        add_to_album (Except.ok ()) call s files =
          (Except.error AddErr.urlParseError, [])) := by
  constructor
  · simp [normalizeAlbum, h]
  · intro hp call files
    simp [add_to_album, normalizeAlbum, h, hp]

/-- Witness for C10: a file-content URL is parsed verbatim rather than
interpolated, and a bare code that merely contains `catbox.moe` is not a valid
absolute URL, so `add_to_album` fails with the parse error. -/
theorem album_verbatim_parse_witness :
    normalizeAlbum "https://files.catbox.moe/xyz123.png" =
      urlParse "https://files.catbox.moe/xyz123.png" ∧
    add_to_album (Except.ok () : Except Unit Unit) (fun _ _ => Except.ok ())
      "mycatbox.moealbum" ["abc456"] = (Except.error AddErr.urlParseError, []) :=
  ⟨(album_verbatim_parse (ε := Unit) "https://files.catbox.moe/xyz123.png" (by decide)).1,
   (album_verbatim_parse "mycatbox.moealbum" (by decide)).2 (by decide) _ _⟩

/-- Decomposition of a successful `splitAtChar?`: the input is the part
before, the separator, then the part after, and the separator does not occur
in the part before. -/
theorem splitAtChar?_eq_some (c : Char) (l : List Char) :
    ∀ a b : List Char, splitAtChar? c l = some (a, b) → l = a ++ c :: b ∧ c ∉ a := by
  induction l with
  | nil => intro a b h; simp [splitAtChar?] at h
  | cons x xs ih =>
    intro a b h
    by_cases hx : x = c
    · subst hx
      simp [splitAtChar?] at h
      obtain ⟨rfl, rfl⟩ := h
      exact ⟨rfl, by simp⟩
    · rw [splitAtChar?, if_neg hx] at h
      cases hsp : splitAtChar? c xs with
      | none => rw [hsp] at h; simp at h
      | some p =>
        obtain ⟨a', b'⟩ := p
        rw [hsp] at h
        simp only [Option.map_some'] at h
        have heq := Option.some.inj h
        obtain ⟨rfl, rfl⟩ : x :: a' = a ∧ b' = b :=
          ⟨congrArg Prod.fst heq, congrArg Prod.snd heq⟩
        obtain ⟨hdec, hni⟩ := ih a' b' hsp
        refine ⟨by simp [hdec], ?_⟩
        intro hc
        rcases List.mem_cons.mp hc with h1 | h2
        · exact hx h1.symm
        · exact hni h2

/-- `splitAtChar?` recovers a decomposition around the first occurrence of the
separator. -/
theorem splitAtChar?_append (c : Char) (a b : List Char) (h : c ∉ a) :
    splitAtChar? c (a ++ c :: b) = some (a, b) := by
  induction a with
  | nil => simp [splitAtChar?]
  | cons x xs ih =>
    have hx : ¬ x = c := fun hh => h (by simp [hh])
    have hxs : c ∉ xs := fun hc => h (by simp [hc])
    simp [splitAtChar?, hx, ih hxs]

/-- `takeWhile`/`dropWhile` on a list made of an all-true block, a false
element and a tail. -/
theorem takeWhile_dropWhile_append (p : Char → Bool) (l m : List Char) (y : Char)
    (hl : ∀ x ∈ l, p x = true) (hy : p y = false) :
    (l ++ y :: m).takeWhile p = l ∧ (l ++ y :: m).dropWhile p = y :: m := by
  induction l with
  | nil => simp [List.takeWhile_cons, List.dropWhile_cons, hy]
  | cons x xs ih =>
    have hx : p x = true := hl x (by simp)
    have ihh := ih (fun z hz => hl z (by simp [hz]))
    simp [List.takeWhile_cons, List.dropWhile_cons, hx, ihh.1, ihh.2]

/-- A list prefix survives appending on the right. -/
theorem isPrefixOf_append_right (a : List Char) :
    ∀ l m : List Char, a.isPrefixOf l = true → a.isPrefixOf (l ++ m) = true := by
  induction a with
  | nil => intro l m _; simp [List.isPrefixOf]
  | cons x xs ih =>
    intro l m h
    cases l with
    | nil =>
      have h' : false = true := h
      exact absurd h' (by decide)
    | cons y ys =>
      have h' : (x == y && xs.isPrefixOf ys) = true := h
      show (x == y && xs.isPrefixOf (ys ++ m)) = true
      rw [Bool.and_eq_true] at h' ⊢
      exact ⟨h'.1, ih ys m h'.2⟩

/-- An occurrence of a pattern survives appending on the right. -/
theorem listContains_append_right (pat : List Char) :
    ∀ l m : List Char, listContains pat l = true → listContains pat (l ++ m) = true := by
  intro l
  induction l with
  | nil =>
    intro m h
    have hpat : pat = [] := by simpa [listContains, List.isEmpty_iff] using h
    subst hpat
    cases m with
    | nil => simp [listContains]
    | cons y ys =>
      have hpre : ([] : List Char).isPrefixOf (y :: ys) = true := rfl
      simp only [listContains, Bool.or_eq_true, List.nil_append]
      exact Or.inl hpre
  | cons x xs ih =>
    intro m h
    simp only [listContains, Bool.or_eq_true] at h ⊢
    cases h with
    | inl hp => exact Or.inl (isPrefixOf_append_right pat (x :: xs) m hp)
    | inr hc => exact Or.inr (ih m hc)

/-- Rust `str::contains` is stable under appending on the right. -/
theorem strContains_append_right (s t pat : String)
    (h : strContains s pat = true) : strContains (s ++ t) pat = true := by
  unfold strContains at h ⊢
  rw [String.data_append]
  exact listContains_append_right pat.data s.data t.data h

/-- Serialisation of an authority-form URL, at the character level. -/
theorem urlToString_data_authority (sch hostL : List Char) (pp : String) :
    (urlToString ⟨String.mk sch, some (String.mk hostL), pp⟩).data =
      sch ++ ':' :: '/' :: '/' :: (hostL ++ pp.data) := by
  have h1 : (urlToString ⟨String.mk sch, some (String.mk hostL), pp⟩).data
      = sch ++ ("://".data ++ (hostL ++ pp.data)) := by
    show (String.mk sch ++ "://" ++ String.mk hostL ++ pp).data = _
    simp [String.data_append, List.append_assoc]
  rw [h1]
  rfl

/-- Serialisation of a cannot-be-a-base URL, at the character level. -/
theorem urlToString_data_noAuthority (sch pa : List Char) :
    (urlToString ⟨String.mk sch, none, String.mk pa⟩).data = sch ++ ':' :: pa := by
  have h1 : (urlToString ⟨String.mk sch, none, String.mk pa⟩).data
      = sch ++ (":".data ++ pa) := by
    show (String.mk sch ++ ":" ++ String.mk pa).data = _
    simp [String.data_append, List.append_assoc]
  rw [h1]
  rfl

/-- Parsing a serialised authority-form URL with a valid scheme, a nonempty
host free of `/`, and a `/`-rooted path recovers exactly those components. -/
theorem urlParse_authority (s : String) (sch hostL tl : List Char)
    (hs : s.data = sch ++ ':' :: '/' :: '/' :: (hostL ++ '/' :: tl))
    (hok : schemeOk sch = true) (hnc : ':' ∉ sch)
    (hne : hostL ≠ []) (hmem : ∀ x ∈ hostL, x ≠ '/') :
    urlParse s = some ⟨String.mk sch, some (String.mk hostL), String.mk ('/' :: tl)⟩ := by
  have hhe : hostL.isEmpty = false := by
    cases hostL with
    | nil => exact absurd rfl hne
    | cons a as => rfl
  have htw := takeWhile_dropWhile_append (fun c => c ≠ '/') hostL tl '/'
    (fun x hx => decide_eq_true (hmem x hx)) (by decide)
  unfold urlParse
  rw [hs, splitAtChar?_append ':' sch _ hnc]
  show urlParseAfterScheme sch ('/' :: '/' :: (hostL ++ '/' :: tl)) = _
  unfold urlParseAfterScheme
  rw [if_pos hok]
  rw [if_pos (show (('/' :: '/' :: (hostL ++ '/' :: tl) : List Char)).take 2 = ['/', '/'] from rfl)]
  rw [show (('/' :: '/' :: (hostL ++ '/' :: tl) : List Char)).drop 2 = hostL ++ '/' :: tl from rfl]
  rw [htw.1, htw.2]
  rw [if_neg (by rw [hhe]; exact Bool.false_ne_true)]
  rw [if_neg (by exact Bool.false_ne_true)]

/-- Parsing a serialised cannot-be-a-base URL with a valid scheme recovers its
components. -/
theorem urlParse_noAuthority (s : String) (sch rest : List Char)
    (hs : s.data = sch ++ ':' :: rest)
    (hok : schemeOk sch = true) (hnc : ':' ∉ sch)
    (hsl : ¬ rest.take 2 = ['/', '/']) :
    urlParse s = some ⟨String.mk sch, none, String.mk rest⟩ := by
  unfold urlParse
  rw [hs, splitAtChar?_append ':' sch rest hnc]
  show urlParseAfterScheme sch rest = _
  unfold urlParseAfterScheme
  rw [if_pos hok, if_neg hsl]

/-- The first element surviving `dropWhile` fails the predicate. -/
theorem dropWhile_head_false (p : Char → Bool) (l : List Char) (y : Char)
    (tl : List Char) (h : l.dropWhile p = y :: tl) : p y = false := by
  induction l with
  | nil => simp [List.dropWhile] at h
  | cons a as ih =>
    by_cases ha : p a = true
    · rw [List.dropWhile_cons_of_pos ha] at h
      exact ih h
    · rw [List.dropWhile_cons_of_neg ha] at h
      obtain ⟨rfl, -⟩ : a = y ∧ as = tl := by
        injection h with h1 h2
        exact ⟨h1, h2⟩
      exact Bool.eq_false_iff.mpr ha

/-- A successfully parsed URL serialises back to its input — up to the `/`
the parser supplies for an empty authority path — and re-parsing the
serialisation yields the same URL. -/
theorem urlParse_roundtrip (s : String) (u : Url) (h0 : urlParse s = some u) :
    (urlToString u = s ∨ urlToString u = s ++ "/") ∧
    urlParse (urlToString u) = some u := by
  unfold urlParse at h0
  cases hsp : splitAtChar? ':' s.data with
  | none => rw [hsp] at h0; simp at h0
  | some p =>
    obtain ⟨sch, rest⟩ := p
    rw [hsp] at h0
    have h : urlParseAfterScheme sch rest = some u := h0
    unfold urlParseAfterScheme at h
    obtain ⟨hdec, hnc⟩ := splitAtChar?_eq_some ':' s.data sch rest hsp
    by_cases hok : schemeOk sch = true
    case neg => rw [if_neg hok] at h; simp at h
    rw [if_pos hok] at h
    by_cases hsl : rest.take 2 = ['/', '/']
    · rw [if_pos hsl] at h
      obtain ⟨rtl, rfl⟩ : ∃ rtl, rest = '/' :: '/' :: rtl := by
        cases rest with
        | nil => simp at hsl
        | cons a t1 =>
          cases t1 with
          | nil => simp [List.take] at hsl
          | cons b t2 =>
            simp [List.take] at hsl
            obtain ⟨rfl, rfl⟩ := hsl
            exact ⟨t2, rfl⟩
      rw [show (('/' :: '/' :: rtl : List Char)).drop 2 = rtl from rfl] at h
      by_cases hhe : (rtl.takeWhile (fun c => c ≠ '/')).isEmpty = true
      · rw [if_pos hhe] at h
        simp at h
      · rw [if_neg hhe] at h
        have hXu := Option.some.inj h
        subst hXu
        have hmem : ∀ x ∈ rtl.takeWhile (fun c => c ≠ '/'), x ≠ '/' := by
          intro x hx
          have hpx := List.mem_takeWhile_imp hx
          simpa using hpx
        have hne : rtl.takeWhile (fun c => c ≠ '/') ≠ [] := by
          intro hh
          rw [hh] at hhe
          exact hhe rfl
        have hsplitA : rtl.takeWhile (fun c => c ≠ '/') ++ rtl.dropWhile (fun c => c ≠ '/') = rtl :=
          List.takeWhile_append_dropWhile _ _
        have hslash : ("/" : String).data = ['/'] := rfl
        cases hpl : rtl.dropWhile (fun c => c ≠ '/') with
        | nil =>
          rw [hpl] at hsplitA
          have hrtl : rtl.takeWhile (fun c => c ≠ '/') = rtl := by
            simpa using hsplitA
          rw [if_pos (show (([] : List Char)).isEmpty = true from rfl)]
          have hdata : (urlToString ⟨String.mk sch, some (String.mk (rtl.takeWhile (fun c => c ≠ '/'))), "/"⟩).data
              = sch ++ ':' :: '/' :: '/' :: (rtl.takeWhile (fun c => c ≠ '/') ++ '/' :: []) :=
            urlToString_data_authority sch _ "/"
          constructor
          · right
            apply String.ext
            rw [String.data_append, hdec, hdata, hrtl]
            simp [hslash, List.append_assoc]
          · rw [urlParse_authority _ sch (rtl.takeWhile (fun c => c ≠ '/')) [] hdata hok hnc hne hmem]
        | cons y tl =>
          have hy : y = '/' := by
            have hhead := dropWhile_head_false (fun c => c ≠ '/') rtl y tl hpl
            simpa using hhead
          subst hy
          rw [hpl] at hsplitA
          rw [if_neg (show ¬ (('/' :: tl : List Char)).isEmpty = true by simp)]
          have hdata : (urlToString ⟨String.mk sch, some (String.mk (rtl.takeWhile (fun c => c ≠ '/'))), String.mk ('/' :: tl)⟩).data
              = sch ++ ':' :: '/' :: '/' :: (rtl.takeWhile (fun c => c ≠ '/') ++ '/' :: tl) :=
            urlToString_data_authority sch _ (String.mk ('/' :: tl))
          constructor
          · left
            apply String.ext
            rw [hdec, hdata, hsplitA]
          · exact urlParse_authority _ sch (rtl.takeWhile (fun c => c ≠ '/')) tl hdata hok hnc hne hmem
    · rw [if_neg hsl] at h
      have hXu := Option.some.inj h
      subst hXu
      have hdata : (urlToString ⟨String.mk sch, none, String.mk rest⟩).data
          = sch ++ ':' :: rest := urlToString_data_noAuthority sch rest
      constructor
      · left
        apply String.ext
        rw [hdec, hdata]
      · exact urlParse_noAuthority _ sch rest hdata hok hnc hsl

/-- Normalizing a successfully normalized album reference again — via its
serialised URL — yields the same URL. -/
theorem normalizeAlbum_idem (s : String) (u : Url) (h : normalizeAlbum s = some u) :
    normalizeAlbum (urlToString u) = some u := by
  unfold normalizeAlbum at h
  by_cases hc : strContains s "catbox.moe" = true
  · rw [if_pos hc] at h
    obtain ⟨hts, hrp⟩ := urlParse_roundtrip s u h
    have hcont : strContains (urlToString u) "catbox.moe" = true := by
      rcases hts with he | he
      · rw [he]; exact hc
      · rw [he]; exact strContains_append_right s "/" _ hc
    unfold normalizeAlbum
    rw [if_pos hcont]
    exact hrp
  · rw [if_neg hc] at h
    obtain ⟨hts, hrp⟩ := urlParse_roundtrip _ u h
    have hbase : strContains ("https://catbox.moe/c/" ++ s) "catbox.moe" = true := by
      unfold strContains
      rw [String.data_append]
      apply listContains_append_right
      decide
    have hcont : strContains (urlToString u) "catbox.moe" = true := by
      rcases hts with he | he
      · rw [he]; exact hbase
      · rw [he]; exact strContains_append_right _ "/" _ hbase
    unfold normalizeAlbum
    rw [if_pos hcont]
    exact hrp

/-- C6 counterexample: file-reference normalization is not unconditionally
round-trip stable. The URL `https://files.catbox.moe/files.catbox.moe`
normalizes to the bare code `files.catbox.moe`, but re-normalizing that
extracted code does not yield the code back: it contains the subdomain
substring, fails to parse as a URL, and is dropped. -/
theorem file_roundtrip_counterexample :
    normalizeFile "https://files.catbox.moe/files.catbox.moe" = some "files.catbox.moe" ∧
    normalizeFile "files.catbox.moe" = none ∧
    normalizeFile "files.catbox.moe" ≠ some "files.catbox.moe" := by
  have h2 : normalizeFile "files.catbox.moe" = none := rfl
  refine ⟨rfl, h2, ?_⟩
  rw [h2]
  simp

/-- C6 (amended): album normalization is idempotent — normalizing the
serialisation of a normalized album reference, in particular an
already-canonical album URL, yields the same URL — and deterministic
(normalizing the same reference twice yields the same result); file-reference
normalization is round-trip stable for every extracted bare code that does
not itself contain `files.catbox.moe`: such a code is passed through
unchanged. -/
theorem normalization_roundtrip (s t c : String) (u : Url)
    (ha : normalizeAlbum s = some u) (_hf : normalizeFile t = some c)
    (hc : strContains c "files.catbox.moe" = false) :
    normalizeAlbum (urlToString u) = some u ∧
    normalizeAlbum s = normalizeAlbum s ∧
    normalizeFile c = some c := by
  refine ⟨normalizeAlbum_idem s u ha, rfl, ?_⟩
  unfold normalizeFile
  rw [if_neg (by rw [hc]; exact Bool.false_ne_true)]

/-- Witness for C6 (amended): the canonical album URL for `myalbum`
re-normalizes to itself, and the code `xyz123.png` extracted from a file URL
re-normalizes to itself. -/
theorem normalization_roundtrip_witness :
    normalizeAlbum (urlToString ⟨"https", some "catbox.moe", "/c/myalbum"⟩) =
      some ⟨"https", some "catbox.moe", "/c/myalbum"⟩ ∧
    normalizeAlbum "myalbum" = normalizeAlbum "myalbum" ∧
    normalizeFile "xyz123.png" = some "xyz123.png" :=
  normalization_roundtrip "myalbum" "https://files.catbox.moe/xyz123.png"
    "xyz123.png" ⟨"https", some "catbox.moe", "/c/myalbum"⟩
    (by decide) (by decide) (by decide)

end Cbx
